import Mathlib

/-!
Shallow embedding of the Harmony-Search music generator
(`harmony_search_music_generator.py`, class `HarmonySearchMusic`).

Python floats are modelled as exact rationals (`ℚ`), MIDI notes and
velocities as naturals, and every call to the global random generator is
replaced by an explicit oracle argument: each stochastic primitive reads a
dedicated field of a per-position record (for `random.random()` a rational,
for `random.choice(xs)` an index reduced modulo `xs.length`, for
`random.randint(a, b)` an offset reduced modulo `b - a + 1`).  Quantifying
theorems over all oracles covers every random stream of the source.
-/

namespace HarmonySearch

/-- Truncation toward zero, the behaviour of Python's `int()` on a number. -/
def pyInt (q : ℚ) : ℤ := q.num.tdiv q.den

/-- Python `random.randint(lo, hi)` (inclusive), driven by oracle offset `k`. -/
def pyRandint (lo hi : ℤ) (k : ℕ) : ℤ := lo + (k : ℤ) % (hi - lo + 1)

/-- Constant `MAJOR_SCALE` (major scale intervals). -/
def MAJOR_SCALE : List ℤ := [0, 2, 4, 5, 7, 9, 11]

/-- Constant `MINOR_SCALE` (minor scale intervals). -/
def MINOR_SCALE : List ℤ := [0, 2, 3, 5, 7, 8, 10]

/-- Constant `PENTATONIC_SCALE` (major pentatonic scale intervals). -/
def PENTATONIC_SCALE : List ℤ := [0, 2, 4, 7, 9]

/-- Constant `BLUES_SCALE` (blues scale intervals). -/
def BLUES_SCALE : List ℤ := [0, 3, 5, 6, 7, 10]

/-- Constant `CHORD_PROGRESSIONS` (style name to list of progressions). -/
def CHORD_PROGRESSIONS : List (String × List (List ℕ)) :=
  [("pop", [[1, 5, 6, 4], [1, 4, 5, 4], [1, 6, 4, 5]]),
   ("jazz", [[2, 5, 1, 6], [1, 6, 2, 5], [3, 6, 2, 5, 1]]),
   ("classical", [[1, 4, 5, 1], [1, 6, 4, 5, 1], [1, 2, 5, 1]])]

/-- Constant `RHYTHMIC_PATTERNS` (1 = note, 0 = rest). -/
def RHYTHMIC_PATTERNS : List (String × List ℕ) :=
  [("simple", [1, 0, 1, 0, 1, 0, 1, 0]),
   ("syncopated", [1, 0, 0, 1, 0, 1, 0, 0]),
   ("complex", [1, 1, 0, 1, 0, 0, 1, 0]),
   ("waltz", [1, 0, 0, 1, 0, 0]),
   ("swing", [1, 0, 1, 0, 0, 1, 0, 0])]

/-- Constant `CONTOUR_PATTERNS` (direction of melodic movement). -/
def CONTOUR_PATTERNS : List (List ℤ) :=
  [[1, 1, -1, -1], [1, -1, 1, -1], [1, 1, 1, -1, -1, -1], [-1, 1, 1, 1, -1]]

/-- One melody element, the dict
`{'note': .., 'velocity': .., 'duration': .., 'is_rest': ..}`. -/
structure NoteData where
  note : ℕ
  velocity : ℕ
  duration : ℚ
  is_rest : Bool
deriving DecidableEq, Repr

/-- The configuration attributes set by `HarmonySearchMusic.__init__`; default
values are the constructor's defaults.  The derived attributes `scale`,
`chord_progression`, `harmony_memory` and `best_harmony` are passed
explicitly to the functions that read them (`generate_music` recomputes the
first two at its start and rebuilds the memory). -/
structure Config where
  HMS : ℕ := 20
  HMCR : ℚ := 9/10
  PAR : ℚ := 3/10
  max_improvisations : ℕ := 100
  key : String := "C"
  scale_type : String := "major"
  tempo : ℕ := 120
  measures : ℕ := 4
  time_signature : ℕ × ℕ := (4, 4)
  complexity : ℚ := 1/2
  progression_style : String := "pop"
  rhythm_style : String := "simple"
  instrument : ℕ := 0
  note_duration : ℚ := 1/4
  velocity_range : ℕ × ℕ := (60, 100)
deriving DecidableEq, Repr

/-- The default configuration (`HarmonySearchMusic()` with no overrides). -/
def default_config : Config := {}

/-- `_note_to_midi`: the dictionary lookup `notes.get(note, 60)`. -/
def note_to_midi (note : String) : ℕ :=
  match note with
  | "C" => 60 | "C#" => 61 | "Db" => 61 | "D" => 62 | "D#" => 63 | "Eb" => 63
  | "E" => 64 | "F" => 65 | "F#" => 66 | "Gb" => 66 | "G" => 67 | "G#" => 68
  | "Ab" => 68 | "A" => 69 | "A#" => 70 | "Bb" => 70 | "B" => 71 | _ => 60

/-- The seventeen keys of the `_note_to_midi` dictionary. -/
def recognized_notes : List String :=
  ["C", "C#", "Db", "D", "D#", "Eb", "E", "F", "F#", "Gb", "G", "G#", "Ab", "A", "A#", "Bb", "B"]

/-- The interval table chosen by `_generate_scale` from the scale type. -/
def scale_intervals (cfg : Config) : List ℤ :=
  if cfg.scale_type = "major" then MAJOR_SCALE
  else if cfg.scale_type = "minor" then MINOR_SCALE
  else if cfg.scale_type = "pentatonic" then PENTATONIC_SCALE
  else if cfg.scale_type = "blues" then BLUES_SCALE
  else MAJOR_SCALE

/-- `_generate_scale`: scale notes across octaves `-1..2`, filtered to the
valid MIDI range `[0, 128)`. -/
def generate_scale (cfg : Config) : List ℕ :=
  (([-1, 0, 1, 2] : List ℤ).map (fun octave =>
    (scale_intervals cfg).filterMap (fun interval =>
      if 0 ≤ (note_to_midi cfg.key : ℤ) + interval + octave * 12 ∧
          (note_to_midi cfg.key : ℤ) + interval + octave * 12 < 128
      then some ((note_to_midi cfg.key : ℤ) + interval + octave * 12).toNat
      else none))).flatten

/-- `_select_chord_progression`: a random progression of the chosen style, or
the default `[1, 4, 5, 1]` for an unknown style; the random choice is driven
by the oracle index `pick`. -/
def select_chord_progression (style : String) (pick : ℕ) : List ℕ :=
  match CHORD_PROGRESSIONS.lookup style with
  | some ps => ps.getD (pick % ps.length) [1, 4, 5, 1]
  | none => [1, 4, 5, 1]

/-- `_get_chord_notes(degree, octave)`: triad notes for a scale degree,
filtered to the MIDI range. -/
def get_chord_notes (cfg : Config) (scale : List ℕ) (degree : ℕ) (octave : ℤ) : List ℕ :=
  let intervals : List ℕ := if cfg.scale_type = "major" then [0, 2, 4] else [0, 2, 4]
  let deg := (((degree : ℤ) - 1).emod (scale.length : ℤ)).toNat
  let root_idx := deg * 2
  intervals.filterMap (fun interval =>
    let idx := (root_idx + interval) % scale.length
    let note : ℤ := (scale.getD idx 0 : ℤ) + octave * 12
    if 0 ≤ note ∧ note < 128 then some note.toNat else none)

/-- `notes_per_beat = int(1 / self.note_duration)`. -/
def notes_per_beat (cfg : Config) : ℕ := (pyInt (1 / cfg.note_duration)).toNat

/-- `total_notes = (measures * time_signature[0]) * notes_per_beat`. -/
def total_notes (cfg : Config) : ℕ :=
  cfg.measures * cfg.time_signature.1 * notes_per_beat cfg

/-- The rest element appended when the rhythm pattern holds a 0. -/
def rest_note (cfg : Config) : NoteData :=
  { note := 0, velocity := 0, duration := cfg.note_duration, is_rest := true }

/-- Clamp an index into `[0, len - 1]`, the pattern
`max(0, min(idx, len(scale) - 1))`. -/
def clampIdx (len : ℕ) (i : ℤ) : ℕ := (max 0 (min i ((len : ℤ) - 1))).toNat

/-- Oracle record for the random draws of one position of
`_generate_random_harmony`. -/
structure RndNote where
  stepR : ℚ := 0
  rChord1 : ℚ := 0
  rChord2 : ℚ := 0
  chordPick : ℕ := 0
  velPick : ℕ := 0
  durR : ℚ := 0
deriving Repr

/-- Loop body of `_generate_random_harmony` at position `i`; the state is
`(current_note_idx, contour_idx)`. -/
def random_note_step (cfg : Config) (scale prog rhythm : List ℕ) (contour : List ℤ)
    (i : ℕ) (rr : RndNote) (st : ℕ × ℕ) : NoteData × (ℕ × ℕ) :=
  let npb := notes_per_beat cfg
  let beats_per_measure := cfg.time_signature.1
  let current_measure := i / (beats_per_measure * npb)
  if rhythm.getD (i % rhythm.length) 0 = 1 then
    let direction := contour.getD (st.2 % contour.length) 0
    let contour_idx := st.2 + 1
    let step := max 1 (pyInt (rr.stepR * 3 * cfg.complexity))
    let idx := clampIdx scale.length ((st.1 : ℤ) + direction * step)
    let note := scale.getD idx 0
    let current_chord_degree := prog.getD (current_measure % prog.length) 0
    let chord_notes := get_chord_notes cfg scale current_chord_degree 0
    let note' :=
      if cfg.complexity < rr.rChord1 ∧ rr.rChord2 < 3/5 then
        (if chord_notes ≠ [] then chord_notes.getD (rr.chordPick % chord_notes.length) 0 else note)
      else note
    let velocity := (pyRandint cfg.velocity_range.1 cfg.velocity_range.2 rr.velPick).toNat
    let duration := cfg.note_duration * (4/5 + rr.durR * (2/5))
    ({ note := note', velocity := velocity, duration := duration, is_rest := false },
     (idx, contour_idx))
  else
    (rest_note cfg, st)

/-- Fold step of `_generate_random_harmony`: append the produced element and
thread the `(current_note_idx, contour_idx)` state. -/
def random_fold_step (cfg : Config) (scale prog rhythm : List ℕ) (contour : List ℤ)
    (r : ℕ → RndNote) (acc : List NoteData × ℕ × ℕ) (i : ℕ) : List NoteData × ℕ × ℕ :=
  let p := random_note_step cfg scale prog rhythm contour i (r i) acc.2
  (acc.1 ++ [p.1], p.2)

/-- `_generate_random_harmony`: the rhythm pattern of the configured style
(defaulting to `simple`), one contour pattern chosen by the oracle, then the
per-position loop starting from the middle of the scale. -/
def generate_random_harmony (cfg : Config) (scale prog : List ℕ)
    (contourPick : ℕ) (r : ℕ → RndNote) : List NoteData :=
  let rhythm := (RHYTHMIC_PATTERNS.lookup cfg.rhythm_style).getD [1, 0, 1, 0, 1, 0, 1, 0]
  let contour := CONTOUR_PATTERNS.getD (contourPick % CONTOUR_PATTERNS.length) [1, 1, -1, -1]
  ((List.range (total_notes cfg)).foldl
    (random_fold_step cfg scale prog rhythm contour r)
    (([] : List NoteData), (scale.length / 2, 0))).1

/-- The non-rest note values of a melody
(`[note['note'] for note in melody if not note['is_rest']]`). -/
def non_rest_notes (melody : List NoteData) : List ℕ :=
  (melody.filter (fun nd => !nd.is_rest)).map (fun nd => nd.note)

/-- `max(l)` of a list of naturals (0 on the empty list). -/
def listMax (l : List ℕ) : ℕ := l.foldr max 0

/-- `min(l)` of a nonempty list of naturals. -/
def listMin (l : List ℕ) : ℕ := l.foldr min (l.headD 0)

/-- Fitness component 1: pitch-range score, guarded by `pitch_range > 0`. -/
def range_component (nonRest : List ℕ) : ℚ :=
  match nonRest with
  | [] => 0
  | _ :: _ =>
    let pitch_range : ℤ := (listMax nonRest : ℤ) - (listMin nonRest : ℤ)
    if 0 < pitch_range then (1 - |(pitch_range : ℚ) - 18| / 36) * 10 else 0

/-- Fitness component 2 state loop: count of melodic direction changes. -/
def contour_changes (nonRest : List ℕ) : ℕ :=
  ((nonRest.zip nonRest.tail).foldl
    (fun st p =>
      let direction : ℤ := if p.1 < p.2 then 1 else if p.2 < p.1 then -1 else 0
      let changes := if direction ≠ 0 ∧ direction ≠ st.2 ∧ st.2 ≠ 0 then st.1 + 1 else st.1
      let prev := if direction ≠ 0 then direction else st.2
      (changes, prev))
    ((0 : ℕ), (0 : ℤ))).1

/-- Fitness component 3 loop: how many non-rest notes lie in the chord of
their measure (`measure = int((i / notes_per_beat) / time_signature[0])`). -/
def chord_alignment (cfg : Config) (scale prog : List ℕ) (melody : List NoteData) : ℕ :=
  melody.enum.foldl
    (fun acc p =>
      if p.2.is_rest then acc
      else
        let beat_position : ℚ := (p.1 : ℚ) / (notes_per_beat cfg : ℚ)
        let measure := (pyInt (beat_position / (cfg.time_signature.1 : ℚ))).toNat
        let chord_degree := prog.getD (measure % prog.length) 0
        let chord_notes := get_chord_notes cfg scale chord_degree 0
        if p.2.note ∈ chord_notes then acc + 1 else acc)
    0

/-- Fitness component 5: number of distinct non-rest note values. -/
def unique_notes (nonRest : List ℕ) : ℕ := nonRest.dedup.length

/-- Fitness component 5: `max(note_counts.values())` (0 when no notes). -/
def max_repeats (nonRest : List ℕ) : ℕ :=
  ((nonRest.dedup).map (fun n => nonRest.count n)).foldr max 0

/-- Fitness component 6 loop: dissonant consecutive intervals kept with
probability `1 - complexity`; the oracle `r` is consumed sequentially, one
draw per dissonant interval, as in the source. -/
def dissonance_count (cfg : Config) (nonRest : List ℕ) (r : ℕ → ℚ) : ℕ :=
  ((nonRest.zip nonRest.tail).foldl
    (fun st p =>
      let interval := (((p.2 : ℤ) - (p.1 : ℤ)).natAbs) % 12
      if interval ∈ ([1, 2, 11, 13] : List ℕ) then
        (if cfg.complexity < r st.2 then (st.1 + 1, st.2 + 1) else (st.1, st.2 + 1))
      else st)
    ((0 : ℕ), (0 : ℕ))).1

/-- Fitness component 7: all contiguous motifs of length
`3 .. min(5, total_notes // 3)`. -/
def motif_list (nonRest : List ℕ) (total : ℕ) : List (List ℕ) :=
  let max_motif_len := min 5 (total / 3)
  ((List.range (max_motif_len + 1 - 3)).map (fun k =>
    let motif_len := 3 + k
    (List.range (nonRest.length + 1 - motif_len)).map (fun i =>
      (nonRest.drop i).take motif_len))).flatten

/-- Fitness component 7: number of distinct motifs occurring more than once. -/
def repeated_motifs (motifs : List (List ℕ)) : ℕ :=
  ((motifs.dedup).filter (fun m => decide (1 < motifs.count m))).length

/-- `_evaluate_fitness(melody)`: the seven weighted components, 0 for an
empty melody or a melody with no pitched notes.  The oracle `r` drives the
probabilistic dissonance tolerance of component 6. -/
def evaluate_fitness (cfg : Config) (scale prog : List ℕ) (melody : List NoteData)
    (r : ℕ → ℚ) : ℚ :=
  if melody = [] then 0
  else
    let total := (melody.filter (fun nd => !nd.is_rest)).length
    if total = 0 then 0
    else
      let nonRest := non_rest_notes melody
      let f1 := range_component nonRest
      let contour_score := min ((contour_changes nonRest : ℚ) / ((total : ℚ) / 5)) 1
      let f2 := contour_score * 15
      let chord_score := (chord_alignment cfg scale prog melody : ℚ) / (total : ℚ)
      let f3 := chord_score * 25
      let rests_count := melody.length - total
      let rhythm_frac := (total : ℚ) / ((total : ℚ) + (rests_count : ℚ))
      let rhythm_score := 1 - |rhythm_frac - 7/10| / (7/10)
      let f4 := rhythm_score * 20
      let diversity_score := min ((unique_notes nonRest : ℚ) / 12) 1
      let repetition_penalty := min ((max_repeats nonRest : ℚ) / (total : ℚ)) (1/2)
      let f5 := diversity_score * 20 - repetition_penalty * 10
      let dissonance_penalty := min ((dissonance_count cfg nonRest r : ℚ) / (total : ℚ)) 1
      let f6 := dissonance_penalty * 15
      let motif_score := min ((repeated_motifs (motif_list nonRest total) : ℚ) / 3) 1
      let f7 := motif_score * 10
      f1 + f2 + f3 + f4 + f5 - f6 + f7

/-- One slot of the harmony memory, the dict `{'melody': .., 'fitness': ..}`. -/
structure HarmonyEntry where
  melody : List NoteData
  fitness : ℚ
deriving DecidableEq, Repr

/-- Default used to model partial indexing (`melody[i]`, never reached on the
source's in-range accesses). -/
def junk_note : NoteData := { note := 0, velocity := 0, duration := 0, is_rest := true }

/-- Default used to model partial indexing into the harmony memory. -/
def junk_entry : HarmonyEntry := { melody := [], fitness := 0 }

/-- Oracle record for the random draws of one position of
`_improvise_new_harmony`. -/
structure ImpRand where
  rHmcr : ℚ := 0
  memPick : ℕ := 0
  rPar : ℚ := 0
  adjPick : ℕ := 0
  velChangePick : ℕ := 0
  durSignPick : ℕ := 0
  rNote : ℚ := 0
  rScale : ℚ := 0
  scalePick : ℕ := 0
  chordPick : ℕ := 0
  velPick : ℕ := 0
  durR : ℚ := 0
deriving Repr

/-- Loop body of `_improvise_new_harmony` at position `i`: memory
consideration with probability HMCR (with pitch adjustment with probability
PAR on non-rests), otherwise a fresh random note or rest. -/
def improvise_note (cfg : Config) (scale prog : List ℕ) (memory : List HarmonyEntry)
    (i : ℕ) (rr : ImpRand) : NoteData :=
  if rr.rHmcr < cfg.HMCR then
    let random_harmony := memory.getD (rr.memPick % memory.length) junk_entry
    let note_data := random_harmony.melody.getD i junk_note
    if rr.rPar < cfg.PAR ∧ note_data.is_rest = false then
      let current_idx := if note_data.note ∈ scale then scale.indexOf note_data.note else 0
      let adjustment := ([-2, -1, 1, 2] : List ℤ).getD (rr.adjPick % 4) 0
      let new_idx := clampIdx scale.length ((current_idx : ℤ) + adjustment)
      let velocity_change := pyRandint (-5) 5 rr.velChangePick
      let velocity := (max (cfg.velocity_range.1 : ℤ)
        (min ((note_data.velocity : ℤ) + velocity_change) (cfg.velocity_range.2 : ℤ))).toNat
      let duration_change : ℚ := (1/20) * (([-1, 1] : List ℚ).getD (rr.durSignPick % 2) 1)
      let duration := max (1/10) (min (note_data.duration + duration_change) (1/2))
      { note := scale.getD new_idx 0, velocity := velocity,
        duration := duration, is_rest := false }
    else note_data
  else
    let npb := notes_per_beat cfg
    let measure_idx := (i / npb) / cfg.time_signature.1
    let chord_degree := prog.getD (measure_idx % prog.length) 0
    if rr.rNote < 4/5 then
      let note :=
        if rr.rScale < 7/10 then scale.getD (rr.scalePick % scale.length) 0
        else
          let chord_notes := get_chord_notes cfg scale chord_degree 0
          if chord_notes ≠ [] then chord_notes.getD (rr.chordPick % chord_notes.length) 0
          else scale.getD (rr.scalePick % scale.length) 0
      { note := note,
        velocity := (pyRandint cfg.velocity_range.1 cfg.velocity_range.2 rr.velPick).toNat,
        duration := cfg.note_duration * (4/5 + rr.durR * (2/5)),
        is_rest := false }
    else rest_note cfg

/-- `_improvise_new_harmony`: one `improvise_note` per position. -/
def improvise_new_harmony (cfg : Config) (scale prog : List ℕ)
    (memory : List HarmonyEntry) (r : ℕ → ImpRand) : List NoteData :=
  (List.range (total_notes cfg)).map (fun i => improvise_note cfg scale prog memory i (r i))

/-- `self.harmony_memory.sort(key=lambda x: x['fitness'], reverse=True)`:
stable sort, descending by fitness. -/
def sort_by_fitness (memory : List HarmonyEntry) : List HarmonyEntry :=
  memory.mergeSort (fun a b => decide (b.fitness ≤ a.fitness))

/-- Oracle bundle for one `generate_music` run. -/
structure RunRand where
  progPick : ℕ := 0
  initContour : ℕ → ℕ := fun _ => 0
  initNotes : ℕ → ℕ → RndNote := fun _ _ => {}
  initFit : ℕ → ℕ → ℚ := fun _ _ => 0
  impNotes : ℕ → ℕ → ImpRand := fun _ _ => {}
  impFit : ℕ → ℕ → ℚ := fun _ _ => 0

/-- `_generate_initial_harmony_memory`: `HMS` random harmonies, each
evaluated once, then sorted descending by fitness. -/
def initial_harmony_memory (cfg : Config) (scale prog : List ℕ) (r : RunRand) :
    List HarmonyEntry :=
  sort_by_fitness ((List.range cfg.HMS).map (fun k =>
    let harmony := generate_random_harmony cfg scale prog (r.initContour k) (r.initNotes k)
    { melody := harmony, fitness := evaluate_fitness cfg scale prog harmony (r.initFit k) }))

/-- The replacement step inside the `generate_music` loop: if the new fitness
strictly exceeds the last (worst) entry's, overwrite that slot and re-sort. -/
def replace_if_better (memory : List HarmonyEntry) (cand : HarmonyEntry) :
    List HarmonyEntry :=
  if (memory.getLastD junk_entry).fitness < cand.fitness then
    sort_by_fitness (memory.set (memory.length - 1) cand)
  else memory

/-- The candidate built at iteration `t` of the loop: one improvised harmony
together with its single fitness evaluation. -/
def candidate_at (cfg : Config) (scale prog : List ℕ) (r : RunRand)
    (memory : List HarmonyEntry) (t : ℕ) : HarmonyEntry :=
  let new_harmony := improvise_new_harmony cfg scale prog memory (r.impNotes t)
  { melody := new_harmony,
    fitness := evaluate_fitness cfg scale prog new_harmony (r.impFit t) }

/-- Harmony memory after `t` iterations of the `generate_music` loop. -/
def memory_after (cfg : Config) (scale prog : List ℕ) (r : RunRand) : ℕ → List HarmonyEntry
  | 0 => initial_harmony_memory cfg scale prog r
  | t + 1 =>
    let mem := memory_after cfg scale prog r t
    replace_if_better mem (candidate_at cfg scale prog r mem t)

/-- The per-iteration candidates of one run, in order. -/
def improvisation_trace (cfg : Config) (scale prog : List ℕ) (r : RunRand) :
    List HarmonyEntry :=
  (List.range cfg.max_improvisations).map
    (fun t => candidate_at cfg scale prog r (memory_after cfg scale prog r t) t)

/-- `generate_music`: regenerate scale and progression, build the initial
memory, run the improvisation loop `max_improvisations` times, return the
melody of the best (first) memory slot. -/
def generate_music (cfg : Config) (r : RunRand) : List NoteData :=
  let scale := generate_scale cfg
  let prog := select_chord_progression cfg.progression_style r.progPick
  ((memory_after cfg scale prog r cfg.max_improvisations).headD junk_entry).melody

/-- Optional new values for the attributes `set_parameters` is called with
(`None` = keyword absent). -/
structure ParamUpdate where
  HMS : Option ℕ := none
  HMCR : Option ℚ := none
  PAR : Option ℚ := none
  max_improvisations : Option ℕ := none
  key : Option String := none
  scale_type : Option String := none
  tempo : Option ℕ := none
  measures : Option ℕ := none
  complexity : Option ℚ := none
  progression_style : Option String := none
  rhythm_style : Option String := none
  instrument : Option ℕ := none
  note_duration : Option ℚ := none

/-- `set_parameters(**kwargs)`: every supplied keyword that names an existing
attribute overwrites it unconditionally; no value is checked and nothing is
raised.  (The derived `scale`/`chord_progression` state it then refreshes is
modelled as recomputed-on-read throughout.) -/
def set_parameters (c : Config) (u : ParamUpdate) : Config :=
  { c with
    HMS := u.HMS.getD c.HMS
    HMCR := u.HMCR.getD c.HMCR
    PAR := u.PAR.getD c.PAR
    max_improvisations := u.max_improvisations.getD c.max_improvisations
    key := u.key.getD c.key
    scale_type := u.scale_type.getD c.scale_type
    tempo := u.tempo.getD c.tempo
    measures := u.measures.getD c.measures
    complexity := u.complexity.getD c.complexity
    progression_style := u.progression_style.getD c.progression_style
    rhythm_style := u.rhythm_style.getD c.rhythm_style
    instrument := u.instrument.getD c.instrument
    note_duration := u.note_duration.getD c.note_duration }

/-- Well-formedness of one melody element with respect to a scale: a rest
carries note 0 and velocity 0; a pitched element carries a scale member,
hence a valid MIDI pitch. -/
def well_formed (scale : List ℕ) (nd : NoteData) : Prop :=
  (nd.is_rest = true → nd.note = 0 ∧ nd.velocity = 0) ∧
  (nd.is_rest = false → nd.note ∈ scale ∧ nd.note < 128)

/-- Descending order by fitness, the state the source keeps the harmony
memory in after every sort. -/
def sorted_desc (l : List HarmonyEntry) : Prop :=
  l.Pairwise (fun a b => b.fitness ≤ a.fitness)

/-- The maximum fitness present in a memory state (`⊥` for the empty one). -/
def max_fitness : List HarmonyEntry → WithBot ℚ
  | [] => ⊥
  | h :: t => max (h.fitness : WithBot ℚ) (max_fitness t)

/-- A four-measure, all-rest melody (64 sixteenth-of-a-run slots under the
default configuration). -/
def rest_melody : List NoteData :=
  List.replicate 64 { note := 0, velocity := 0, duration := 1/4, is_rest := true }

/-- A one-note configuration used to instantiate theorems concretely. -/
def cfg_small : Config :=
  { HMS := 1, HMCR := 1, PAR := 0, measures := 1, time_signature := (1, 1),
    note_duration := 1 }

/-- A one-entry memory whose single melody has one pitched note. -/
def mem_small : List HarmonyEntry :=
  [{ melody := [{ note := 62, velocity := 80, duration := 1, is_rest := false }],
     fitness := 5 }]

/-! Helper lemmas about the embedded operations. -/

/-- The `_note_to_midi` table only holds values in `[60, 71]`. -/
theorem note_to_midi_bounds (s : String) : 60 ≤ note_to_midi s ∧ note_to_midi s ≤ 71 := by
  unfold note_to_midi
  split <;> omega

/-- Indexing any list modulo its (positive) length stays inside the list. -/
theorem getD_mod_mem {α : Type} (l : List α) (d : α) (n : ℕ) (h : 0 < l.length) :
    l.getD (n % l.length) d ∈ l := by
  rw [List.getD_eq_getElem l d (Nat.mod_lt _ h)]
  exact List.getElem_mem _

/-- Every scale note is a valid MIDI pitch below 128. -/
theorem mem_generate_scale_lt (cfg : Config) : ∀ x ∈ generate_scale cfg, x < 128 := by
  intro x hx
  simp only [generate_scale, List.mem_flatten, List.mem_map] at hx
  obtain ⟨l, ⟨octave, _, rfl⟩, hxl⟩ := hx
  rw [List.mem_filterMap] at hxl
  obtain ⟨interval, _, hsome⟩ := hxl
  split at hsome
  · rename_i hcond
    cases hsome
    omega
  · cases hsome

/-- The interval 0 belongs to all four interval tables. -/
theorem zero_mem_scale_intervals (cfg : Config) : (0 : ℤ) ∈ scale_intervals cfg := by
  unfold scale_intervals
  split_ifs <;> decide

/-- The generated scale is never empty: the octave `-1` copy of the key's
base note always passes the MIDI-range filter. -/
theorem generate_scale_ne_nil (cfg : Config) : generate_scale cfg ≠ [] := by
  obtain ⟨hb1, hb2⟩ := note_to_midi_bounds cfg.key
  refine List.ne_nil_of_mem
    (a := ((note_to_midi cfg.key : ℤ) + 0 + (-1) * 12).toNat) ?_
  unfold generate_scale
  rw [List.mem_flatten]
  refine ⟨_, List.mem_map.mpr ⟨-1, by decide, rfl⟩, ?_⟩
  rw [List.mem_filterMap]
  exact ⟨0, zero_mem_scale_intervals cfg, by rw [if_pos (by constructor <;> omega)]⟩

/-- With `octave = 0`, every chord note is a member of the scale. -/
theorem get_chord_notes_subset (cfg : Config) (scale : List ℕ) (hne : scale ≠ [])
    (degree : ℕ) : ∀ x ∈ get_chord_notes cfg scale degree 0, x ∈ scale := by
  intro x hx
  have hlen : 0 < scale.length := List.length_pos.mpr hne
  simp only [get_chord_notes, List.mem_filterMap] at hx
  obtain ⟨interval, _, hsome⟩ := hx
  split at hsome
  · rename_i hcond
    cases hsome
    simp only [mul_comm, zero_mul, add_zero, Int.toNat_natCast]
    exact getD_mod_mem scale 0 _ hlen
  · cases hsome

/-- Sorting keeps the number of memory slots. -/
theorem sort_by_fitness_length (l : List HarmonyEntry) :
    (sort_by_fitness l).length = l.length :=
  List.length_mergeSort l

/-- Sorting permutes the memory slots. -/
theorem sort_by_fitness_perm (l : List HarmonyEntry) :
    (sort_by_fitness l).Perm l :=
  List.mergeSort_perm l _

/-- Sorting yields a memory in descending fitness order. -/
theorem sort_by_fitness_sorted (l : List HarmonyEntry) :
    sorted_desc (sort_by_fitness l) := by
  have h := @List.sorted_mergeSort HarmonyEntry
    (fun a b : HarmonyEntry => decide (b.fitness ≤ a.fitness))
    (fun a b c hab hbc => by
      simp only [decide_eq_true_eq] at *
      exact le_trans hbc hab)
    (fun a b => by
      simp only [Bool.or_eq_true, decide_eq_true_eq]
      exact le_total b.fitness a.fitness)
    l
  exact h.imp (fun hab => of_decide_eq_true hab)

/-- Overwriting the last slot is removing it and appending the new entry. -/
theorem set_last_eq_dropLast_append {α : Type} (l : List α) (c : α) (h : l ≠ []) :
    l.set (l.length - 1) c = l.dropLast ++ [c] := by
  induction l with
  | nil => exact absurd rfl h
  | cons a t ih =>
    cases t with
    | nil => rfl
    | cons b t' =>
      have : (a :: b :: t').length - 1 = ((b :: t').length - 1) + 1 := by
        simp [Nat.succ_sub_one]
      rw [this, List.set_cons_succ, ih (by simp), List.dropLast_cons₂, List.cons_append]

/-- In a descending memory the last entry has minimum fitness. -/
theorem getLast_min (l : List HarmonyEntry) (h : l ≠ []) (hs : sorted_desc l) :
    ∀ x ∈ l, (l.getLast h).fitness ≤ x.fitness := by
  induction l with
  | nil => exact absurd rfl h
  | cons a t ih =>
    rcases List.pairwise_cons.mp hs with ⟨ha, ht⟩
    intro x hx
    cases t with
    | nil =>
      simp only [List.mem_singleton] at hx
      subst hx
      exact le_refl _
    | cons b t' =>
      rw [List.getLast_cons (by simp)]
      rcases List.mem_cons.mp hx with rfl | hx'
      · exact le_trans (ha _ (List.getLast_mem _)) (le_refl _)
      · exact ih (by simp) ht x hx'

/-- `getLastD` agrees with `getLast` on nonempty lists. -/
theorem getLastD_eq_getLast (l : List HarmonyEntry) (h : l ≠ []) :
    l.getLastD junk_entry = l.getLast h := by
  rw [List.getLastD_eq_getLast?, List.getLast?_eq_getLast l h, Option.getD_some]

/-- `max_fitness` bounds: it is at most `c` iff every entry is. -/
theorem max_fitness_le_iff (l : List HarmonyEntry) (c : ℚ) :
    max_fitness l ≤ (c : WithBot ℚ) ↔ ∀ x ∈ l, x.fitness ≤ c := by
  induction l with
  | nil => simp [max_fitness]
  | cons a t ih =>
    simp only [max_fitness, max_le_iff, WithBot.coe_le_coe, List.mem_cons, ih]
    constructor
    · rintro ⟨h1, h2⟩ x (rfl | hx)
      · exact h1
      · exact h2 x hx
    · intro hx
      exact ⟨hx a (Or.inl rfl), fun x hxt => hx x (Or.inr hxt)⟩

/-- `max_fitness` is invariant under permutation. -/
theorem max_fitness_perm {l l' : List HarmonyEntry} (h : l.Perm l') :
    max_fitness l = max_fitness l' := by
  induction h with
  | nil => rfl
  | cons x _ ih => simp [max_fitness, ih]
  | swap x y l => simp [max_fitness, max_left_comm]
  | trans _ _ ih1 ih2 => exact ih1.trans ih2

/-- `max_fitness` over an appended final entry. -/
theorem max_fitness_append (l : List HarmonyEntry) (c : HarmonyEntry) :
    max_fitness (l ++ [c]) = max (max_fitness l) (c.fitness : WithBot ℚ) := by
  induction l with
  | nil => simp [max_fitness, max_comm]
  | cons a t ih => simp [max_fitness, ih, max_assoc]

/-- In a descending nonempty memory the head carries the maximum fitness. -/
theorem max_fitness_head (l : List HarmonyEntry) (h : l ≠ []) (hs : sorted_desc l) :
    max_fitness l = ((l.headD junk_entry).fitness : WithBot ℚ) := by
  cases l with
  | nil => exact absurd rfl h
  | cons a t =>
    rcases List.pairwise_cons.mp hs with ⟨ha, _⟩
    simp only [max_fitness, List.headD_cons]
    exact max_eq_left ((max_fitness_le_iff t a.fitness).mpr ha)

/-- The memory size is preserved by every loop iteration. -/
theorem memory_after_length (cfg : Config) (scale prog : List ℕ) (r : RunRand) :
    ∀ t, (memory_after cfg scale prog r t).length = cfg.HMS := by
  intro t
  induction t with
  | zero =>
    simp [memory_after, initial_harmony_memory, sort_by_fitness_length]
  | succ t ih =>
    simp only [memory_after, replace_if_better]
    split_ifs
    · rw [sort_by_fitness_length, List.length_set, ih]
    · exact ih

/-- The memory is in descending fitness order after every iteration. -/
theorem memory_after_sorted (cfg : Config) (scale prog : List ℕ) (r : RunRand) :
    ∀ t, sorted_desc (memory_after cfg scale prog r t) := by
  intro t
  induction t with
  | zero => exact sort_by_fitness_sorted _
  | succ t ih =>
    simp only [memory_after, replace_if_better]
    split_ifs
    · exact sort_by_fitness_sorted _
    · exact ih

/-- With a positive memory size the memory is never empty. -/
theorem memory_after_ne_nil (cfg : Config) (scale prog : List ℕ) (r : RunRand)
    (h : 0 < cfg.HMS) (t : ℕ) : memory_after cfg scale prog r t ≠ [] := by
  have := memory_after_length cfg scale prog r t
  intro hcontra
  rw [hcontra] at this
  simp at this
  omega

/-- The random-harmony fold appends exactly one element per loop index. -/
theorem random_fold_length (cfg : Config) (scale prog rhythm : List ℕ)
    (contour : List ℤ) (r : ℕ → RndNote) :
    ∀ (l : List ℕ) (acc : List NoteData × ℕ × ℕ),
      ((l.foldl (random_fold_step cfg scale prog rhythm contour r) acc).1).length
        = acc.1.length + l.length := by
  intro l
  induction l with
  | nil => intro acc; simp
  | cons i t ih =>
    intro acc
    rw [List.foldl_cons, ih]
    simp [random_fold_step]
    omega

/-- The lookup of a style in the progression table yields one of the three
fixed template lists, or fails. -/
theorem chord_progressions_lookup (style : String) :
    CHORD_PROGRESSIONS.lookup style = some [[1, 5, 6, 4], [1, 4, 5, 4], [1, 6, 4, 5]] ∨
    CHORD_PROGRESSIONS.lookup style = some [[2, 5, 1, 6], [1, 6, 2, 5], [3, 6, 2, 5, 1]] ∨
    CHORD_PROGRESSIONS.lookup style = some [[1, 4, 5, 1], [1, 6, 4, 5, 1], [1, 2, 5, 1]] ∨
    CHORD_PROGRESSIONS.lookup style = none := by
  by_cases h1 : style = "pop"
  · subst h1; left; rfl
  · by_cases h2 : style = "jazz"
    · subst h2; right; left; rfl
    · by_cases h3 : style = "classical"
      · subst h3; right; right; left; rfl
      · right; right; right
        simp only [CHORD_PROGRESSIONS, List.lookup,
          beq_eq_false_iff_ne.mpr h1, beq_eq_false_iff_ne.mpr h2, beq_eq_false_iff_ne.mpr h3]

/-! The claim theorems. -/

/-- C1: during the optimizer loop the candidate overwrites the worst
(minimum-fitness) slot iff its fitness strictly exceeds the worst fitness;
on fitness less than or equal to the worst (ties included) the memory is
left completely unchanged; the last slot of the (sorted) memory is indeed
the minimum-fitness one. -/
theorem replace_if_better_strict (memory : List HarmonyEntry) (cand : HarmonyEntry)
    (hne : memory ≠ []) (hs : sorted_desc memory) :
    (∀ x ∈ memory, (memory.getLastD junk_entry).fitness ≤ x.fitness) ∧
    (cand.fitness ≤ (memory.getLastD junk_entry).fitness →
      replace_if_better memory cand = memory) ∧
    ((memory.getLastD junk_entry).fitness < cand.fitness →
      (replace_if_better memory cand).Perm (memory.dropLast ++ [cand])) := by
  refine ⟨?_, ?_, ?_⟩
  · rw [getLastD_eq_getLast memory hne]
    exact getLast_min memory hne hs
  · intro hle
    unfold replace_if_better
    rw [if_neg (not_lt.mpr hle)]
  · intro hlt
    unfold replace_if_better
    rw [if_pos hlt, set_last_eq_dropLast_append memory cand hne]
    exact sort_by_fitness_perm _

/-- Witness for C1: a candidate whose fitness ties the worst leaves a
concrete two-slot memory unchanged. -/
theorem replace_if_better_strict_witness :
    replace_if_better
      [{ melody := [], fitness := 2 }, { melody := [], fitness := 1 }]
      { melody := [], fitness := 1 }
    = [{ melody := [], fitness := 2 }, { melody := [], fitness := 1 }] :=
  (replace_if_better_strict
    [{ melody := [], fitness := 2 }, { melody := [], fitness := 1 }]
    { melody := [], fitness := 1 }
    (by decide) (by unfold sorted_desc; decide)).2.1 (by decide)

/-- C2: the harmony memory holds exactly HMS entries after initialization
and after every iteration of the optimizer loop, for every configuration
with a populated memory and every random stream. -/
theorem harmony_memory_size_invariant (cfg : Config) (r : RunRand)
    (_hH : 0 < cfg.HMS) (t : ℕ) :
    (memory_after cfg (generate_scale cfg)
      (select_chord_progression cfg.progression_style r.progPick) r t).length
      = cfg.HMS :=
  memory_after_length cfg _ _ r t

/-- Witness for C2 at a concrete one-slot configuration, two iterations in. -/
theorem harmony_memory_size_invariant_witness :
    (memory_after cfg_small (generate_scale cfg_small)
      (select_chord_progression cfg_small.progression_style
        (RunRand.progPick {})) {} 2).length = cfg_small.HMS :=
  harmony_memory_size_invariant cfg_small {} (by decide) 2

/-- C4 counterexample: with the jazz style the generator's chord progression
can have length 5 while `measures` is 4, so no harmony-level law
`len(chord_progression) == measures` holds. -/
theorem chord_progression_length_ne_measures :
    (select_chord_progression
      ({ default_config with progression_style := "jazz" } : Config).progression_style
      2).length
    ≠ ({ default_config with progression_style := "jazz" } : Config).measures := by
  decide

/-- C4 amended: every produced harmony's melody has length exactly
`measures * beats_per_measure * notes_per_beat`; the chord progression is
generator state, one of the fixed style templates, of length 4 or 5
independent of `measures`. -/
theorem produced_melody_lengths (cfg : Config) (scale prog : List ℕ) :
    (∀ cp r, (generate_random_harmony cfg scale prog cp r).length
      = cfg.measures * cfg.time_signature.1 * notes_per_beat cfg) ∧
    (∀ memory r, (improvise_new_harmony cfg scale prog memory r).length
      = cfg.measures * cfg.time_signature.1 * notes_per_beat cfg) ∧
    (∀ style pick, (select_chord_progression style pick).length = 4 ∨
      (select_chord_progression style pick).length = 5) := by
  refine ⟨?_, ?_, ?_⟩
  · intro cp r
    unfold generate_random_harmony
    rw [random_fold_length]
    simp [total_notes]
  · intro memory r
    unfold improvise_new_harmony
    simp [total_notes]
  · intro style pick
    unfold select_chord_progression
    rcases chord_progressions_lookup style with h | h | h | h <;> rw [h]
    · have h3 : pick % 3 = 0 ∨ pick % 3 = 1 ∨ pick % 3 = 2 := by omega
      rcases h3 with h3 | h3 | h3 <;> simp [h3]
    · have h3 : pick % 3 = 0 ∨ pick % 3 = 1 ∨ pick % 3 = 2 := by omega
      rcases h3 with h3 | h3 | h3 <;> simp [h3]
    · have h3 : pick % 3 = 0 ∨ pick % 3 = 1 ∨ pick % 3 = 2 := by omega
      rcases h3 with h3 | h3 | h3 <;> simp [h3]
    · simp

/-- C6 counterexample: values the spec calls invalid (a probability above 1,
hms below 2, zero measures) are accepted without any error, and the update
changes the configuration of an already-constructed instance. -/
theorem set_parameters_accepts_invalid :
    (set_parameters default_config { HMCR := some (3/2) }).HMCR = 3/2 ∧
    default_config.HMCR ≠ 3/2 ∧
    (set_parameters default_config { HMS := some 1 }).HMS = 1 ∧
    (set_parameters default_config { measures := some 0 }).measures = 0 :=
  ⟨rfl, by norm_num [default_config], rfl, rfl⟩

/-- C6 amended: no validation exists — the constructor takes no arguments
and always succeeds with defaults, and `set_parameters` overwrites the
attributes of a live instance with arbitrary supplied values (including
hms < 2, probabilities outside `[0,1]` and non-positive measures), never
raising. -/
theorem set_parameters_unchecked (c : Config) (q p : ℚ) (n m : ℕ) :
    set_parameters c { HMS := some n, HMCR := some q, PAR := some p, measures := some m }
      = { c with HMS := n, HMCR := q, PAR := p, measures := m } :=
  rfl

/-- C8 counterexample: the evaluator awards no chord-progression template
bonus — on a four-measure all-rest harmony the progression `[1,4,5,1]`
scores 0, not 2 more than a template-free progression. -/
theorem no_template_bonus :
    evaluate_fitness default_config (generate_scale default_config) [1, 4, 5, 1]
      rest_melody (fun _ => 0) = 0 ∧
    ¬ (evaluate_fitness default_config (generate_scale default_config) [1, 4, 5, 1]
        rest_melody (fun _ => 0)
      = evaluate_fitness default_config (generate_scale default_config) [2, 3, 6, 2]
        rest_melody (fun _ => 0) + 2) := by
  have h1 : evaluate_fitness default_config (generate_scale default_config) [1, 4, 5, 1]
      rest_melody (fun _ => 0) = 0 := by decide
  have h2 : evaluate_fitness default_config (generate_scale default_config) [2, 3, 6, 2]
      rest_melody (fun _ => 0) = 0 := by decide
  refine ⟨h1, ?_⟩
  rw [h1, h2]
  norm_num

/-- C8 amended: the fitness evaluator implements no template matching over
the chord progression; any melody with no pitched notes scores 0 under
every progression, so `[1,4,5,1]` earns no I-IV-V-I bonus. -/
theorem all_rest_fitness_zero (cfg : Config) (scale prog : List ℕ)
    (melody : List NoteData) (r : ℕ → ℚ)
    (h : ∀ nd ∈ melody, nd.is_rest = true) :
    evaluate_fitness cfg scale prog melody r = 0 := by
  by_cases hm : melody = []
  · simp [evaluate_fitness, hm]
  · have ht : melody.filter (fun nd => !nd.is_rest) = [] := by
      rw [List.filter_eq_nil_iff]
      intro nd hnd
      simp [h nd hnd]
    simp [evaluate_fitness, hm, ht]

/-- Witness for C8 amended: the all-rest melody under `[1,4,5,1]`. -/
theorem all_rest_fitness_zero_witness :
    evaluate_fitness default_config (generate_scale default_config) [1, 4, 5, 1]
      rest_melody (fun _ => 0) = 0 :=
  all_rest_fitness_zero default_config (generate_scale default_config) [1, 4, 5, 1]
    rest_melody (fun _ => 0)
    (by
      intro nd hnd
      have hrepl : nd ∈ List.replicate 64
          ({ note := 0, velocity := 0, duration := 1/4, is_rest := true } : NoteData) := by
        simpa [rest_melody] using hnd
      rw [List.eq_of_mem_replicate hrepl])

/-- C10: key-name lookup never fails — its value always lies in `[60, 71]`,
and every string outside the seventeen recognized note names silently maps
to 60 (middle C). -/
theorem note_to_midi_silently_defaults :
    (∀ s : String, 60 ≤ note_to_midi s ∧ note_to_midi s ≤ 71) ∧
    (∀ s : String, s ∉ recognized_notes → note_to_midi s = 60) := by
  constructor
  · exact note_to_midi_bounds
  · intro s hs
    unfold note_to_midi
    split
    all_goals first
      | rfl
      | (exfalso; apply hs; decide)

/-- Witness for C10: an unrecognized key name maps to 60 and is in range. -/
theorem note_to_midi_silently_defaults_witness :
    60 ≤ note_to_midi "H" ∧ note_to_midi "H" ≤ 71 ∧ note_to_midi "H" = 60 :=
  ⟨(note_to_midi_silently_defaults.1 "H").1,
   (note_to_midi_silently_defaults.1 "H").2,
   note_to_midi_silently_defaults.2 "H" (by decide)⟩

/-- One replacement step never lowers the maximum fitness in memory. -/
theorem replace_if_better_max_mono (memory : List HarmonyEntry) (cand : HarmonyEntry)
    (hne : memory ≠ []) :
    max_fitness memory ≤ max_fitness (replace_if_better memory cand) := by
  unfold replace_if_better
  split_ifs with hlt
  · rw [max_fitness_perm (sort_by_fitness_perm _),
      set_last_eq_dropLast_append memory cand hne, max_fitness_append]
    conv_lhs => rw [← List.dropLast_append_getLast hne, max_fitness_append]
    apply max_le_max (le_refl _)
    rw [getLastD_eq_getLast memory hne] at hlt
    exact WithBot.coe_le_coe.mpr (le_of_lt hlt)
  · exact le_refl _

/-- C3: within one optimizer run the maximum fitness present in harmony
memory never decreases across iterations, and the harmony returned by
`generate_music` is the head slot, whose stored fitness equals the final
maximum. -/
theorem best_fitness_monotone (cfg : Config) (r : RunRand) (hH : 0 < cfg.HMS) :
    (∀ t, max_fitness (memory_after cfg (generate_scale cfg)
        (select_chord_progression cfg.progression_style r.progPick) r t) ≤
      max_fitness (memory_after cfg (generate_scale cfg)
        (select_chord_progression cfg.progression_style r.progPick) r (t + 1))) ∧
    generate_music cfg r =
      ((memory_after cfg (generate_scale cfg)
        (select_chord_progression cfg.progression_style r.progPick) r
        cfg.max_improvisations).headD junk_entry).melody ∧
    (((memory_after cfg (generate_scale cfg)
        (select_chord_progression cfg.progression_style r.progPick) r
        cfg.max_improvisations).headD junk_entry).fitness : WithBot ℚ) =
      max_fitness (memory_after cfg (generate_scale cfg)
        (select_chord_progression cfg.progression_style r.progPick) r
        cfg.max_improvisations) := by
  refine ⟨?_, rfl, ?_⟩
  · intro t
    exact replace_if_better_max_mono _ _
      (memory_after_ne_nil cfg _ _ r hH t)
  · exact (max_fitness_head _
      (memory_after_ne_nil cfg _ _ r hH cfg.max_improvisations)
      (memory_after_sorted cfg _ _ r cfg.max_improvisations)).symm

/-- Witness for C3 at a concrete configuration: the returned melody is the
final head slot. -/
theorem best_fitness_monotone_witness :
    generate_music cfg_small {} =
      ((memory_after cfg_small (generate_scale cfg_small)
        (select_chord_progression cfg_small.progression_style
          (RunRand.progPick {})) {}
        cfg_small.max_improvisations).headD junk_entry).melody :=
  (best_fitness_monotone cfg_small {} (by decide)).2.1

/-- The loop state after `n` iterations is the fold of the replacement step
over the first `n` candidates. -/
theorem memory_after_eq_foldl (cfg : Config) (scale prog : List ℕ) (r : RunRand) :
    ∀ n, memory_after cfg scale prog r n
      = ((List.range n).map (fun t =>
          candidate_at cfg scale prog r (memory_after cfg scale prog r t) t)).foldl
          replace_if_better (initial_harmony_memory cfg scale prog r) := by
  intro n
  induction n with
  | zero => rfl
  | succ n ih =>
    rw [List.range_succ, List.map_append, List.foldl_append]
    simp only [List.map_cons, List.map_nil, List.foldl_cons, List.foldl_nil]
    rw [← ih]
    rfl

/-- C5: one run performs exactly `max_improvisations` improvisation steps —
the candidate trace has exactly that length, each trace slot is one
improvised harmony paired with exactly one fitness evaluation of it, and the
final memory is the fold of the replacement step over the entire trace (no
early exit ever skips part of the budget). -/
theorem optimizer_exact_budget (cfg : Config) (scale prog : List ℕ) (r : RunRand) :
    (improvisation_trace cfg scale prog r).length = cfg.max_improvisations ∧
    (∀ t, t < cfg.max_improvisations →
      (improvisation_trace cfg scale prog r).getD t junk_entry
        = { melody := improvise_new_harmony cfg scale prog
              (memory_after cfg scale prog r t) (r.impNotes t),
            fitness := evaluate_fitness cfg scale prog
              (improvise_new_harmony cfg scale prog
                (memory_after cfg scale prog r t) (r.impNotes t))
              (r.impFit t) }) ∧
    memory_after cfg scale prog r cfg.max_improvisations
      = (improvisation_trace cfg scale prog r).foldl replace_if_better
          (initial_harmony_memory cfg scale prog r) := by
  refine ⟨by simp [improvisation_trace], ?_, memory_after_eq_foldl cfg scale prog r _⟩
  intro t ht
  unfold improvisation_trace
  rw [List.getD_eq_getElem _ _ (by simpa using ht)]
  rw [List.getElem_map, List.getElem_range]
  rfl

/-- Witness for C5: the first trace slot of a concrete run is the improvised
harmony of iteration 0 with its single evaluation. -/
theorem optimizer_exact_budget_witness :
    (improvisation_trace cfg_small (generate_scale cfg_small) [1] {}).getD 0 junk_entry
      = { melody := improvise_new_harmony cfg_small (generate_scale cfg_small) [1]
            (memory_after cfg_small (generate_scale cfg_small) [1] {} 0)
            (RunRand.impNotes {} 0),
          fitness := evaluate_fitness cfg_small (generate_scale cfg_small) [1]
            (improvise_new_harmony cfg_small (generate_scale cfg_small) [1]
              (memory_after cfg_small (generate_scale cfg_small) [1] {} 0)
              (RunRand.impNotes {} 0))
            (RunRand.impFit {} 0) } :=
  (optimizer_exact_budget cfg_small (generate_scale cfg_small) [1] {}).2.1 0 (by decide)

/-- C7: with HMCR = 1 and PAR = 0, improvisation is pure memory recall —
every position of the improvised melody is the exact value at that position
of some existing memory entry. -/
theorem pure_memory_recall (cfg : Config) (scale prog : List ℕ)
    (memory : List HarmonyEntry) (r : ℕ → ImpRand)
    (hmcr : cfg.HMCR = 1) (hpar : cfg.PAR = 0)
    (hne : memory ≠ [])
    (_hlen : ∀ h ∈ memory, h.melody.length = total_notes cfg)
    (hr : ∀ n, (r n).rHmcr < 1 ∧ 0 ≤ (r n).rPar) :
    ∀ i < total_notes cfg, ∃ h ∈ memory,
      (improvise_new_harmony cfg scale prog memory r).getD i junk_note
        = h.melody.getD i junk_note := by
  intro i hi
  have hmemlen : 0 < memory.length := List.length_pos.mpr hne
  refine ⟨memory.getD ((r i).memPick % memory.length) junk_entry,
    getD_mod_mem memory junk_entry _ hmemlen, ?_⟩
  unfold improvise_new_harmony
  rw [List.getD_eq_getElem _ _ (by simpa using hi), List.getElem_map, List.getElem_range]
  simp only [improvise_note]
  rw [if_pos (show (r i).rHmcr < cfg.HMCR by rw [hmcr]; exact (hr i).1)]
  rw [if_neg (by
    intro hc
    rw [hpar] at hc
    exact absurd hc.1 (not_lt.mpr (hr i).2))]

/-- The one-note configuration has exactly one melody slot. -/
theorem total_notes_cfg_small : total_notes cfg_small = 1 := by
  norm_num [total_notes, notes_per_beat, cfg_small, pyInt]

/-- Witness for C7: a concrete one-position improvisation under HMCR = 1,
PAR = 0 copies the single memory entry's value. -/
theorem pure_memory_recall_witness :
    ∃ h ∈ mem_small,
      (improvise_new_harmony cfg_small (generate_scale cfg_small) [1] mem_small
        (fun _ => {})).getD 0 junk_note = h.melody.getD 0 junk_note :=
  pure_memory_recall cfg_small (generate_scale cfg_small) [1] mem_small (fun _ => {})
    rfl rfl (by decide) (by simp [mem_small, total_notes_cfg_small])
    (fun _ => ⟨by norm_num, le_refl 0⟩) 0
    (by rw [total_notes_cfg_small]; exact Nat.one_pos)

/-- The junk element used for out-of-range melody indexing is a well-formed
rest. -/
theorem junk_note_wf (scale : List ℕ) : well_formed scale junk_note :=
  ⟨fun _ => ⟨rfl, rfl⟩, fun h => nomatch h⟩

/-- The rest element produced by the generators is well-formed. -/
theorem rest_note_wf (cfg : Config) (scale : List ℕ) :
    well_formed scale (rest_note cfg) :=
  ⟨fun _ => ⟨rfl, rfl⟩, fun h => nomatch h⟩

/-- Indexing into a melody of well-formed elements yields a well-formed
element (the out-of-range default being the well-formed junk rest). -/
theorem getD_melody_wf (scale : List ℕ) (l : List NoteData) (i : ℕ)
    (h : ∀ nd ∈ l, well_formed scale nd) : well_formed scale (l.getD i junk_note) := by
  by_cases hi : i < l.length
  · rw [List.getD_eq_getElem l junk_note hi]
    exact h _ (List.getElem_mem _)
  · rw [List.getD_eq_default l junk_note (le_of_not_lt hi)]
    exact junk_note_wf scale

/-- The clamped scale index stays inside the scale. -/
theorem clampIdx_lt (len : ℕ) (h : 0 < len) (i : ℤ) : clampIdx len i < len := by
  unfold clampIdx
  have h1 : min i ((len : ℤ) - 1) ≤ (len : ℤ) - 1 := min_le_right _ _
  have h2 : max 0 (min i ((len : ℤ) - 1)) ≤ (len : ℤ) - 1 := max_le (by omega) h1
  omega

/-- A scale note selected at an in-range index is scale-member and below
128. -/
theorem scale_getD_wf (scale : List ℕ) (hlt : ∀ x ∈ scale, x < 128)
    (idx : ℕ) (hidx : idx < scale.length) :
    scale.getD idx 0 ∈ scale ∧ scale.getD idx 0 < 128 := by
  rw [List.getD_eq_getElem scale 0 hidx]
  exact ⟨List.getElem_mem _, hlt _ (List.getElem_mem _)⟩

/-- A pitched element whose note is an in-range scale member is
well-formed. -/
theorem pitched_wf {scale : List ℕ} {n v : ℕ} {d : ℚ}
    (h : n ∈ scale ∧ n < 128) :
    well_formed scale { note := n, velocity := v, duration := d, is_rest := false } :=
  ⟨(fun hc => nomatch hc), fun _ => h⟩

/-- Every element appended by the random-harmony loop body is well-formed. -/
theorem random_note_step_wf (cfg : Config) (scale prog rhythm : List ℕ)
    (contour : List ℤ) (i : ℕ) (rr : RndNote) (st : ℕ × ℕ)
    (hne : scale ≠ []) (hlt : ∀ x ∈ scale, x < 128) :
    well_formed scale (random_note_step cfg scale prog rhythm contour i rr st).1 := by
  have hpos : 0 < scale.length := List.length_pos.mpr hne
  simp only [random_note_step]
  split_ifs with h1 h2 h3
  · -- pitched note replaced by a chord tone
    refine pitched_wf ?_
    have hcpos : 0 < (get_chord_notes cfg scale
        (prog.getD (i / (cfg.time_signature.1 * notes_per_beat cfg) % prog.length) 0) 0).length :=
      List.length_pos.mpr h3
    have hm := getD_mod_mem _ (0 : ℕ) rr.chordPick hcpos
    have hms := get_chord_notes_subset cfg scale hne _ _ hm
    exact ⟨hms, hlt _ hms⟩
  · -- pitched note from the scale (empty chord list)
    exact pitched_wf (scale_getD_wf scale hlt _ (clampIdx_lt _ hpos _))
  · -- pitched note from the scale (no chord-tone substitution)
    exact pitched_wf (scale_getD_wf scale hlt _ (clampIdx_lt _ hpos _))
  · exact rest_note_wf cfg scale

/-- The random-harmony fold only accumulates well-formed elements. -/
theorem random_fold_wf (cfg : Config) (scale prog rhythm : List ℕ) (contour : List ℤ)
    (r : ℕ → RndNote) (hne : scale ≠ []) (hlt : ∀ x ∈ scale, x < 128) :
    ∀ (l : List ℕ) (acc : List NoteData × ℕ × ℕ),
      (∀ nd ∈ acc.1, well_formed scale nd) →
      ∀ nd ∈ (l.foldl (random_fold_step cfg scale prog rhythm contour r) acc).1,
        well_formed scale nd := by
  intro l
  induction l with
  | nil => intro acc hacc; simpa using hacc
  | cons i t ih =>
    intro acc hacc
    rw [List.foldl_cons]
    apply ih
    intro nd hnd
    simp only [random_fold_step] at hnd
    rcases List.mem_append.mp hnd with h | h
    · exact hacc nd h
    · rw [List.mem_singleton.mp h]
      exact random_note_step_wf cfg scale prog rhythm contour i (r i) acc.2 hne hlt

/-- Every element produced by the improvisation loop body is well-formed,
assuming the memory it recalls from is. -/
theorem improvise_note_wf (cfg : Config) (scale prog : List ℕ)
    (memory : List HarmonyEntry) (i : ℕ) (rr : ImpRand)
    (hne : scale ≠ []) (hlt : ∀ x ∈ scale, x < 128)
    (hmem : ∀ h ∈ memory, ∀ nd ∈ h.melody, well_formed scale nd) :
    well_formed scale (improvise_note cfg scale prog memory i rr) := by
  have hpos : 0 < scale.length := List.length_pos.mpr hne
  have hcopy : well_formed scale
      ((memory.getD (rr.memPick % memory.length) junk_entry).melody.getD i junk_note) := by
    rcases eq_or_ne memory [] with hm | hm
    · subst hm
      simp only [List.getD_nil]
      exact getD_melody_wf scale junk_entry.melody i (by intro nd hnd; cases hnd)
    · exact getD_melody_wf scale _ i
        (hmem _ (getD_mod_mem memory junk_entry _ (List.length_pos.mpr hm)))
  simp only [improvise_note]
  split_ifs
  all_goals first
    | exact rest_note_wf cfg scale
    | exact hcopy
    | exact pitched_wf (scale_getD_wf scale hlt _ (clampIdx_lt _ hpos _))
    | exact pitched_wf (scale_getD_wf scale hlt _ (Nat.mod_lt _ hpos))
    | (rename_i hcne
       refine pitched_wf ?_
       have hm := getD_mod_mem _ (0 : ℕ) rr.chordPick (List.length_pos.mpr hcne)
       have hms := get_chord_notes_subset cfg scale hne _ _ hm
       exact ⟨hms, hlt _ hms⟩)

/-- C9: every harmony the system produces is well-formed — rests carry note
0 and velocity 0, pitched elements carry members of the generator's scale
(hence valid MIDI pitches below 128); improvisation preserves this given a
well-formed memory. -/
theorem produced_notes_well_formed (cfg : Config) (prog : List ℕ) :
    (∀ cp r, ∀ nd ∈ generate_random_harmony cfg (generate_scale cfg) prog cp r,
      well_formed (generate_scale cfg) nd) ∧
    (∀ memory r,
      (∀ h ∈ memory, ∀ nd ∈ h.melody, well_formed (generate_scale cfg) nd) →
      ∀ nd ∈ improvise_new_harmony cfg (generate_scale cfg) prog memory r,
        well_formed (generate_scale cfg) nd) := by
  have hne := generate_scale_ne_nil cfg
  have hlt := mem_generate_scale_lt cfg
  constructor
  · intro cp r nd hnd
    simp only [generate_random_harmony] at hnd
    exact random_fold_wf cfg _ prog _ _ r hne hlt _ _ (by intro x hx; cases hx) nd hnd
  · intro memory r hmem nd hnd
    simp only [improvise_new_harmony] at hnd
    rcases List.mem_map.mp hnd with ⟨i, _, rfl⟩
    exact improvise_note_wf cfg _ prog memory i _ hne hlt hmem

/-- Witness for C9: a concrete one-slot improvisation over the empty memory
yields the junk rest, which is well-formed. -/
theorem produced_notes_well_formed_witness :
    well_formed (generate_scale cfg_small) junk_note :=
  (produced_notes_well_formed cfg_small [1]).2 [] (fun _ => {})
    (by intro h hh; cases hh) junk_note
    (by
      simp only [improvise_new_harmony, total_notes_cfg_small, List.range_succ,
        List.range_zero, List.nil_append, List.map_cons, List.map_nil,
        List.mem_singleton]
      rfl)

end HarmonySearch
